import Mathlib

/-! Verification of the LocalSage turn-streaming engine and history manager.

Embedded source:
* `src/localsage/sage.py` — its `SessionManager` (`count_tokens`,
  `reset_with_summary`, `append_message`, `correct_history`) and `Chat`
  (`stream_response`, `chunk_parse`, `update_renderables`, `buffer_flusher`,
  `spawn_reasoning_panel`, `spawn_response_panel`, `_mini_slate_cleaner`,
  `append_history`).
* `src/localsage/session_manager.py` — its `SessionManager` (`count_tokens`,
  `trim_history`, `remove_history`, `process_history`, `append_message`).
* `src/localsage/file_manager.py` — `FileManager.get_attachments` and
  `FileManager.remove_attachment`.

External collaborators are modelled as explicit function parameters: the
tiktoken encoder (`enc : String → Nat`, already folded with the
`try/except → 0` guard of `encode`), Python's built-in string hash
(`hsh : String → Int`), and `sanitize_math_safe` (an arbitrary
`String → String`; its module is not part of the embedded sources and no claim
depends on its behaviour). -/

/-- A structured-content part: a Python dict item contributes its `"text"`
field (`p.get("text", "")`); non-dict items are skipped by both token
counters. -/
inductive ContentPart where
  | dict (text : String)
  | other
deriving DecidableEq, Repr

/-- The `content` value of a history message: `None`, a string, or a list of
parts — the shapes the two `count_tokens` implementations branch on. -/
inductive Content where
  | null
  | str (s : String)
  | parts (l : List ContentPart)
deriving DecidableEq, Repr

/-- One history entry: `{"role": ..., "content": ...}`. -/
structure Msg where
  role : String
  content : Content
deriving DecidableEq, Repr

/-- Python `"".join(l)`. -/
def pyJoin : List String → String
  | [] => ""
  | s :: t => s ++ pyJoin t

/-- The `"text"` fields of the dict items of a part list. -/
def dictTexts (l : List ContentPart) : List String :=
  l.filterMap fun p => match p with | .dict t => some t | .other => none

/-- Text extraction in `sage.py` `SessionManager.count_tokens`
(`src/localsage/sage.py:284-296`): `None` becomes `""`, strings pass through,
a list flattens to its dict items' texts joined by `" "` (or `""` when there
are no such parts). -/
def sageText : Content → String
  | .null => ""
  | .str s => s
  | .parts l => if (dictTexts l).isEmpty then "" else String.intercalate " " (dictTexts l)

/-- Text extraction in `session_manager.py` `count_tokens`
(`src/localsage/session_manager.py:105-111`): falsy content (`None`, `""`, an
empty list) collapses to `""` via `or ""`; a non-empty list flattens to its
dict items' texts with no separator. -/
def smText : Content → String
  | .null => ""
  | .str s => s
  | .parts [] => ""
  | .parts l => pyJoin (dictTexts l)

/-- Python `list.pop(i)` wrapped in the `try/except IndexError: pass` of
`remove_history` (`src/localsage/session_manager.py:59-65`): negative indices
count from the end, out-of-range indices leave the list unchanged. -/
def pyPopAt (l : List α) (i : Int) : List α :=
  let j := if i < 0 then i + l.length else i
  if 0 ≤ j ∧ j < l.length then l.eraseIdx j.toNat else l

/-- Cache-length reconciliation shared by both `count_tokens` versions:
truncate the cache when it is longer than the history, pad it with `None`
slots when it is shorter (`sage.py:276-280`, `session_manager.py:93-99`). -/
def reconcile (cache : List (Option α)) (n : Nat) : List (Option α) :=
  cache.take n ++ List.replicate (n - cache.length) none

/-- The `sage.py` `SessionManager` state (`src/localsage/sage.py:210-217`).
Its token cache keys each slot on the entry's full extracted text.
`active_filename` models the attribute `reset_with_summary` creates
dynamically at `sage.py:251`; no other code reads it. -/
structure SageSessionManager where
  history : List Msg
  active_session : String
  active_filename : String
  token_cache : List (Option (String × Nat))
deriving Repr

/-- The per-entry loop of `sage.py` `count_tokens` (lines 283-308), returning
the running total, the rebuilt cache, and the number of re-tokenizations
(entries for which `self.encoder.encode` ran). A slot is reused exactly when
it holds the entry's current extracted text; otherwise the entry is
re-encoded and the slot overwritten with `(text, count)`. -/
def sageCountLoop (enc : String → Nat) :
    List Msg → List (Option (String × Nat)) → Nat × List (Option (String × Nat)) × Nat
  | [], _ => (0, [], 0)
  | m :: ms, cache =>
    let text := sageText m.content
    let rest := sageCountLoop enc ms cache.tail
    match cache.head?.join with
    | some (t, c) =>
      if t = text then (c + rest.1, some (t, c) :: rest.2.1, rest.2.2)
      else (enc text + rest.1, some (text, enc text) :: rest.2.1, rest.2.2 + 1)
    | none => (enc text + rest.1, some (text, enc text) :: rest.2.1, rest.2.2 + 1)

/-- `sage.py:274-308` `SessionManager.count_tokens`: reconcile the cache to
the history length, then run the counting loop. Returns the total, the
manager with the updated cache, and the number of entries re-tokenized. -/
def SageSessionManager.count_tokens (enc : String → Nat) (s : SageSessionManager) :
    Nat × SageSessionManager × Nat :=
  let cache := reconcile s.token_cache s.history.length
  let r := sageCountLoop enc s.history cache
  (r.1, { s with token_cache := r.2.1 }, r.2.2)

/-- `sage.py:249-260` `SessionManager.reset_with_summary`: replaces the
history with the three-message summary seed and clears the token cache. Note
that line 251 assigns `self.active_filename`, not `self.active_session`. -/
def SageSessionManager.reset_with_summary (system_prompt summary_text : String)
    (s : SageSessionManager) : SageSessionManager :=
  { s with
    active_filename := ""
    token_cache := []
    history :=
      [⟨"system", .str system_prompt⟩,
       ⟨"system", .str "This summary represents the previous session."⟩,
       ⟨"assistant", .str summary_text⟩] }

/-- The file name `sage.py:1199-1214` `Chat.save_session` writes to: the
active session when one is set, otherwise whatever name the user is prompted
for (modelled as `none`). -/
def SageSessionManager.save_target (s : SageSessionManager) : Option String :=
  if s.active_session ≠ "" then some s.active_session else none

/-- The `session_manager.py` `SessionManager` state
(`src/localsage/session_manager.py:17-25`). Its token cache keys each slot on
a hash of the entry's extracted text. The `gen_time` field only drives the
throughput component of `count_tokens`' return value
(`session_manager.py:116-123`), which never feeds back into the total, the
cache, or the history, so it is not modelled. -/
structure SessionManager where
  history : List Msg
  token_cache : List (Option (Int × Nat))
deriving Repr

/-- The per-entry loop of `session_manager.py` `count_tokens` (lines
101-121): a slot is reused exactly when its stored hash equals the hash of
the entry's current extracted text. Returns the total, the rebuilt cache, and
the number of re-tokenizations. -/
def smCountLoop (hsh : String → Int) (enc : String → Nat) :
    List Msg → List (Option (Int × Nat)) → Nat × List (Option (Int × Nat)) × Nat
  | [], _ => (0, [], 0)
  | m :: ms, cache =>
    let text := smText m.content
    let hv := hsh text
    let rest := smCountLoop hsh enc ms cache.tail
    match cache.head?.join with
    | some (h0, c0) =>
      if h0 = hv then (c0 + rest.1, some (h0, c0) :: rest.2.1, rest.2.2)
      else (enc text + rest.1, some (hv, enc text) :: rest.2.1, rest.2.2 + 1)
    | none => (enc text + rest.1, some (hv, enc text) :: rest.2.1, rest.2.2 + 1)

/-- `session_manager.py:91-124` `SessionManager.count_tokens`. The optional
throughput component of the Python return value is derived from the total and
`gen_time` alone and is discarded by every caller that feeds state back
(`trim_history` takes `tokens[0]`), so the embedding returns the total, the
manager with the updated cache, and the re-tokenization count. -/
def SessionManager.count_tokens (hsh : String → Int) (enc : String → Nat)
    (s : SessionManager) : Nat × SessionManager × Nat :=
  let cache := reconcile s.token_cache s.history.length
  let r := smCountLoop hsh enc s.history cache
  (r.1, { s with token_cache := r.2.1 }, r.2.2)

/-- `session_manager.py:50-52` `append_message`. -/
def SessionManager.append_message (s : SessionManager) (role content : String) :
    SessionManager :=
  { s with history := s.history ++ [⟨role, .str content⟩] }

/-- `session_manager.py:59-65` `remove_history`: pops by index, swallowing
`IndexError`. The Python function has no `return` statement, so its value is
always `None`. -/
def SessionManager.remove_history (s : SessionManager) (i : Int) :
    SessionManager × Option String :=
  ({ s with history := pyPopAt s.history i }, none)

/-- One history edit, in the vocabulary of the spec's cache-correctness
property: `append_message` or `remove_history`. -/
inductive Edit where
  | append (role content : String)
  | remove (index : Int)
deriving DecidableEq, Repr

/-- Apply one edit to a `session_manager.py` manager. Neither edit touches
the token cache (`session_manager.py:50-65`). -/
def SessionManager.applyEdit (s : SessionManager) : Edit → SessionManager
  | .append role content => s.append_message role content
  | .remove i => (s.remove_history i).1

/-- Apply a sequence of edits in order. -/
def SessionManager.applyEdits (s : SessionManager) (es : List Edit) : SessionManager :=
  es.foldl SessionManager.applyEdit s

/-- The `while` loop of `session_manager.py:192-204` `trim_history`: while
the running total exceeds the limit and more than one message remains, pop
cache slot 1 (when the cache has one to pop), subtract its cached count, and
pop history entry 1. -/
def trimLoop (limit : Int) :
    Int → List Msg → List (Option (Int × Nat)) →
      Int × List Msg × List (Option (Int × Nat))
  | tokens, m0 :: m1 :: hrest, cache =>
    if limit < tokens then
      let step : List (Option (Int × Nat)) × Int :=
        match cache with
        | c0 :: c1 :: crest =>
          (c0 :: crest, match c1 with | some hc => tokens - hc.2 | none => tokens)
        | _ => (cache, tokens)
      trimLoop limit step.2 (m0 :: hrest) step.1
    else (tokens, m0 :: m1 :: hrest, cache)
  | tokens, hist, cache => (tokens, hist, cache)

/-- `session_manager.py:192-204` `SessionManager.trim_history`: compute the
budget `int(context_length * 0.95)` (exact rational floor), run
`count_tokens`, then evict at index 1 until the running total fits or one
message remains. -/
def SessionManager.trim_history (hsh : String → Int) (enc : String → Nat)
    (context_length : Nat) (s : SessionManager) : SessionManager :=
  let limit : Int := (context_length * 95 / 100 : Nat)
  let r := s.count_tokens hsh enc
  let t := trimLoop limit (r.1 : Int) r.2.1.history r.2.1.token_cache
  { history := t.2.1, token_cache := t.2.2 }

/-- The backtick character, which closes the attachment-name capture. -/
def tick : Char := Char.ofNat 96

/-- The lazy capture of the attachment patterns (`globals.py:38-40`): the
characters up to the first backtick, failing if a newline or the end of the
string comes first (`.` does not match newlines, and `re.Pattern.match` must
succeed at position 0). -/
def captureTick : List Char → Option (List Char)
  | [] => none
  | c :: rest =>
    if c = tick then some []
    else if c = '\n' then none
    else (captureTick rest).map (c :: ·)

/-- `re.Pattern.match` for a pattern of the form `^---\nKind: <tick>(.*?)<tick>`:
`tag` is the literal prefix up to and including the opening backtick; the
result is the captured name. -/
def matchTag (tag : String) (content : String) : Option String :=
  if tag.data.isPrefixOf content.data then
    (captureTick (content.data.drop tag.data.length)).map fun l => String.mk l
  else none

/-- The literal prefix of `FILE_PATTERN` (`globals.py:38`). -/
def fileTag : String := "---\nFile: `"

/-- The literal prefix of `SITE_PATTERN` (`globals.py:40`). -/
def siteTag : String := "---\nWebsite: `"

/-- The enumeration loop of `file_manager.py:203-216` `get_attachments`,
carrying the running index: only string contents are inspected; a message can
in principle contribute a file match and a website match (two separate `if`s
in the source), though the two prefixes are mutually exclusive. -/
def getAttachmentsFrom : Nat → List Msg → List (Nat × String × String)
  | _, [] => []
  | i, m :: ms =>
    let rest := getAttachmentsFrom (i + 1) ms
    match m.content with
    | .str s =>
      (match matchTag fileTag s with | some n => [(i, "file", n)] | none => []) ++
        (match matchTag siteTag s with | some n => [(i, "website", n)] | none => []) ++
        rest
    | _ => rest

/-- `file_manager.py:203-216` `FileManager.get_attachments` over the
session's history. -/
def SessionManager.get_attachments (s : SessionManager) : List (Nat × String × String) :=
  getAttachmentsFrom 0 s.history

/-- Python truthiness of `str | None`: `None` and `""` are falsy. -/
def pyTruthy : Option String → Bool
  | none => false
  | some s => s != ""

/-- The `target` argument of `remove_attachment`: `int | str` in Python. -/
inductive Target where
  | int (i : Int)
  | str (s : String)
deriving DecidableEq, Repr

/-- The `for ... in reversed(attachments)` loop of `file_manager.py:186-201`
`remove_attachment`, threading the session state. `purge` holds
`remove_history`'s return value; `if not purge: return None` is the falsy
guard on it. The loop falling through returns `"pass"`. -/
def removeAttachmentLoop (target : Target) :
    SessionManager → List (Nat × String × String) → SessionManager × Option String
  | s, [] => (s, some "pass")
  | s, (i, kind, _) :: rest =>
    if target = Target.str "[all]" then
      let r := s.remove_history (i : Int)
      if pyTruthy r.2 then removeAttachmentLoop target r.1 rest
      else (r.1, none)
    else if target = Target.int (i : Int) then
      let r := s.remove_history (i : Int)
      if pyTruthy r.2 then (r.1, some kind) else (r.1, none)
    else removeAttachmentLoop target s rest

/-- `file_manager.py:186-201` `FileManager.remove_attachment`. -/
def FileManager.remove_attachment (s : SessionManager) (target : Target) :
    SessionManager × Option String :=
  removeAttachmentLoop target s s.get_attachments.reverse

/-- The message shape the streaming engine reads and writes: a role and the
string content it appends (`append_message`, `append_history`,
`correct_history` all traffic in strings). -/
structure HMsg where
  role : String
  content : String
deriving DecidableEq, Repr

/-- An element of a heap-allocated content list in the `process_history`
model: an original JSON item (the shapes `ContentPart` covers) or a character
appended by the `list += string` coalescing. -/
inductive HElem where
  | item (p : ContentPart)
  | char (c : Char)
deriving DecidableEq, Repr

/-- The content value a message dict holds in the heap model of
`process_history`: an immutable string, Python `None`, or a reference to a
mutable list object. -/
inductive HContent where
  | str (s : String)
  | null
  | listRef (r : Nat)
deriving DecidableEq, Repr

/-- Whether a content value is a reference to a mutable list object. -/
def HContent.isListRef : HContent → Bool
  | .listRef _ => true
  | _ => false

/-- A message dict cell in the heap model of `process_history`. -/
structure HeapMsg where
  role : String
  content : HContent
deriving DecidableEq, Repr

/-- Placeholder cell used by total lookups; never reached on well-formed
states. -/
def defaultHeapMsg : HeapMsg := ⟨"", .null⟩

/-- Python heap state for `process_history`: message dicts are cells in
`store`, list objects live in `lists`, and the stored history is a list of
cell references. `msg.copy()` is shallow — the copied cell carries the same
content value, in particular the same list reference. -/
structure Heap where
  store : List HeapMsg
  lists : List (List HElem)
  history : List Nat
deriving Repr

/-- Python `str(content)` as the coalescing f-string renders it: strings pass
through, `None` prints `"None"`, and a list renders through `repr` — an
external routine abstracted as `reprL`. -/
def pyStrContent (reprL : List HElem → String) (lists : List (List HElem)) :
    HContent → String
  | .str s => s
  | .null => "None"
  | .listRef r => reprL (lists.getD r [])

/-- One iteration of the `process_history` loop
(`session_manager.py:175-183`): coalesce a `user` message into the previous
processed entry when that entry is also `user` — `+=` on a string content
rebinds the copied cell's value; `+=` on a list content extends the
referenced list object *in place* with the appended string's characters;
`+=` on `None` raises `TypeError` (returned as `none`). Otherwise append a
shallow copy of the message as a fresh cell. -/
def processStep (reprL : List HElem → String) (store : List HeapMsg)
    (lists : List (List HElem)) (processed : List Nat) (r : Nat) :
    Option (List HeapMsg × List (List HElem) × List Nat) :=
  let cur := store.getD r defaultHeapMsg
  match processed.getLast? with
  | some p =>
    let lastMsg := store.getD p defaultHeapMsg
    if lastMsg.role = "user" ∧ cur.role = "user" then
      let app := "\n\n" ++ pyStrContent reprL lists cur.content
      match lastMsg.content with
      | .str s =>
        some (store.set p { lastMsg with content := .str (s ++ app) }, lists, processed)
      | .listRef lr =>
        some (store, lists.set lr (lists.getD lr [] ++ app.data.map HElem.char), processed)
      | .null => none
    else some (store ++ [cur], lists, processed ++ [store.length])
  | none => some (store ++ [cur], lists, processed ++ [store.length])

/-- The full loop of `process_history` over the stored history's references;
the Bool is false when an iteration raised (`None += str`), in which case the
returned state is the heap at the point of the raise. -/
def processLoop (reprL : List HElem → String) :
    List HeapMsg × List (List HElem) × List Nat → List Nat →
      (List HeapMsg × List (List HElem) × List Nat) × Bool
  | acc, [] => (acc, true)
  | (store, lists, processed), r :: rs =>
    match processStep reprL store lists processed r with
    | some acc => processLoop reprL acc rs
    | none => ((store, lists, processed), false)

/-- `session_manager.py:172-190` `SessionManager.process_history` over the
explicit heap: run the coalescing loop, then — when no iteration raised —
rebind the leading processed entry's content to the f-string of its current
content plus the environment block (`get_environment()`, passed in as `env`
since it queries the OS) when that entry is the system prompt. Returns the
heap after the call (also after a raise, which keeps any mutations already
made) and the processed view's references, `none` on a raise. -/
def process_history (reprL : List HElem → String) (env : String) (hp : Heap) :
    Heap × Option (List Nat) :=
  let r := processLoop reprL (hp.store, hp.lists, []) hp.history
  let store := r.1.1
  let lists := r.1.2.1
  let processed := r.1.2.2
  if r.2 then
    match processed.head? with
    | some p0 =>
      if (store.getD p0 defaultHeapMsg).role = "system" then
        let m := store.getD p0 defaultHeapMsg
        let m2 : HeapMsg := { m with
          content := HContent.str (pyStrContent reprL lists m.content ++ "\n\n" ++ env) }
        (⟨store.set p0 m2, lists, hp.history⟩, some processed)
      else (⟨store, lists, hp.history⟩, some processed)
    | none => (⟨store, lists, hp.history⟩, some processed)
  else (⟨store, lists, hp.history⟩, none)

/-- The invariant the `process_history` loop maintains over a starting store
and list heap whose history references only non-list contents: the original
cells are untouched, the list heap is untouched, and every processed cell is
a fresh (post-original) cell whose content is not a list reference. -/
def HeapInv (orig : List HeapMsg) (origLists : List (List HElem))
    (store : List HeapMsg) (lists : List (List HElem)) (processed : List Nat) : Prop :=
  orig.length ≤ store.length ∧
    (∀ i, i < orig.length → store[i]? = orig[i]?) ∧
    lists = origLists ∧
    (∀ p ∈ processed, orig.length ≤ p ∧ p < store.length ∧
      (store.getD p defaultHeapMsg).content.isListRef = false)

/-- A concrete stand-in for Python `repr` of a content list, used by the C8
counterexample (its value is irrelevant there: the mutation happens on the
coalesced-into list, not through `repr`). -/
def reprEx : List HElem → String := fun _ => "[...]"

/-- The value of Python `getattr(delta, attr, "")` in `chunk_parse`
(`sage.py:689-694`): the outer `Option` is attribute absence (defaulting to
`""`), the inner is Python `None`. -/
def getattrOr : Option (Option String) → Option String
  | none => some ""
  | some none => none
  | some (some s) => some s

/-- One streamed delta, as `chunk_parse` sees it: each attribute is absent
(`none`), present-but-`None` (`some none`), or a string. `now` is the
monotonic-clock reading at this fragment's `update_renderables` call, in the
abstract clock's units. -/
structure Chunk where
  reasoning_content : Option (Option String)
  content : Option (Option String)
  now : Int
deriving DecidableEq, Repr

/-- Configuration and external collaborators the streaming loop reads:
`reasoning_panel_consume`, the render cadence threshold
(`1 / refresh_rate`, in abstract clock units), the height-derived panel line
limits, and `sanitize_math_safe` as an abstract function. -/
structure StreamCfg where
  reasoning_panel_consume : Bool
  period : Int
  reasoning_limit : Nat
  response_limit : Nat
  sanitize : String → String

/-- `str.splitlines()` length (newline-only approximation — the count only
gates intermediate re-renders): `""` has zero lines and a trailing newline
does not open a new line. -/
def pyLineCount (s : String) : Nat :=
  if s = "" then 0
  else if s.endsWith "\n" then (s.splitOn "\n").length - 1
  else (s.splitOn "\n").length

/-- The turn-relevant mutable state of `Chat` (`sage.py:326-394`). Rich
`Panel` objects compare by identity, so panels are modelled as identifiers
allocated from `nextPanelId`; `reasoning_panel_text` / `response_panel_text`
mirror the current panel objects' `renderable` text. The session is touched
by streaming only through its history, held here directly. -/
structure Chat where
  history : List HMsg
  live : Bool
  reasoning_panel : Nat
  response_panel : Nat
  nextPanelId : Nat
  reasoning_panel_text : String
  response_panel_text : String
  reasoning_panel_initialized : Bool
  response_panel_initialized : Bool
  count_reasoning : Bool
  count_response : Bool
  cancel_requested : Bool
  renderables_to_display : List Nat
  reasoning : Option String
  response : Option String
  reasoning_buffer : List String
  response_buffer : List String
  full_reasoning_content : String
  full_response_content : String
  last_update_time : Int
deriving Repr

/-- `sage.py:689-699` `Chat.chunk_parse`: extract both payloads, then append
each truthy (non-`None`, non-empty) payload to its buffer. -/
def Chat.chunk_parse (st : Chat) (c : Chunk) : Chat :=
  let r := getattrOr c.reasoning_content
  let p := getattrOr c.content
  { st with
    reasoning := r
    response := p
    reasoning_buffer := st.reasoning_buffer ++ (if pyTruthy r then [r.getD ""] else [])
    response_buffer := st.response_buffer ++ (if pyTruthy p then [p.getD ""] else []) }

/-- `sage.py:808-828` `Chat.spawn_reasoning_panel`: when the last parsed
reasoning value `is not None`, the panel is not yet initialized and a live
display exists, construct a fresh panel, insert it at display position 0 and
mark it initialized. -/
def Chat.spawn_reasoning_panel (st : Chat) : Chat :=
  if st.reasoning.isSome ∧ ¬st.reasoning_panel_initialized ∧ st.live then
    { st with
      reasoning_panel := st.nextPanelId
      reasoning_panel_text := ""
      nextPanelId := st.nextPanelId + 1
      renderables_to_display := st.nextPanelId :: st.renderables_to_display
      reasoning_panel_initialized := true }
  else st

/-- `sage.py:830-856` `Chat.spawn_response_panel`: when the last parsed
response value `is not None`, the panel is not yet initialized and a live
display exists, construct a fresh panel; it is added to the display only when
the reasoning panel is currently displayed — replacing the whole display list
under the consume policy, appended otherwise. -/
def Chat.spawn_response_panel (cfg : StreamCfg) (st : Chat) : Chat :=
  if st.response.isSome ∧ ¬st.response_panel_initialized ∧ st.live then
    let p := st.nextPanelId
    let st1 :=
      { st with response_panel := p, response_panel_text := "", nextPanelId := p + 1 }
    let st2 :=
      if st1.reasoning_panel ∈ st1.renderables_to_display then
        if cfg.reasoning_panel_consume then { st1 with renderables_to_display := [p] }
        else { st1 with renderables_to_display := st1.renderables_to_display ++ [p] }
      else st1
    { st2 with response_panel_initialized := true }
  else st

/-- `sage.py:726-774` `Chat.update_renderables`: when live and at least one
cadence period has elapsed, drain each non-empty buffer into its accumulator;
while the channel's "still counting" flag holds and the accumulated text is
under the panel line limit, push it to the panel, else clear the flag for the
rest of the turn. Finally stamp the flush time. -/
def Chat.update_renderables (cfg : StreamCfg) (st : Chat) (now : Int) : Chat :=
  if st.live ∧ cfg.period ≤ now - st.last_update_time then
    let st1 :=
      if st.reasoning_buffer ≠ [] then
        let full := st.full_reasoning_content ++ pyJoin st.reasoning_buffer
        let stA := { st with full_reasoning_content := full, reasoning_buffer := [] }
        if stA.count_reasoning then
          if pyLineCount full < cfg.reasoning_limit then
            { stA with reasoning_panel_text := full }
          else { stA with count_reasoning := false }
        else stA
      else st
    let st2 :=
      if st1.response_buffer ≠ [] then
        let full := st1.full_response_content ++ pyJoin st1.response_buffer
        let stB := { st1 with full_response_content := full, response_buffer := [] }
        if stB.count_response then
          if pyLineCount full < cfg.response_limit then
            { stB with response_panel_text := cfg.sanitize full }
          else { stB with count_response := false }
        else stB
      else st1
    { st2 with last_update_time := now }
  else st

/-- `sage.py:701-724` `Chat.buffer_flusher`: drain the reasoning buffer into
its accumulator only when the reasoning panel is currently displayed (the
buffer is cleared regardless); drain the response buffer unconditionally;
then, with a live display, push the sanitized accumulated response to the
response panel unconditionally and, when the reasoning panel is displayed,
push the accumulated reasoning to it. -/
def Chat.buffer_flusher (cfg : StreamCfg) (st : Chat) : Chat :=
  let st1 :=
    if st.reasoning_buffer ≠ [] then
      let stA :=
        if st.reasoning_panel ∈ st.renderables_to_display then
          { st with
            full_reasoning_content := st.full_reasoning_content ++ pyJoin st.reasoning_buffer }
        else st
      { stA with reasoning_buffer := [] }
    else st
  let st2 :=
    if st1.response_buffer ≠ [] then
      { st1 with
        full_response_content := st1.full_response_content ++ pyJoin st1.response_buffer
        response_buffer := [] }
    else st1
  if st2.live then
    let st3 := { st2 with response_panel_text := cfg.sanitize st2.full_response_content }
    if st3.reasoning_panel ∈ st3.renderables_to_display then
      { st3 with reasoning_panel_text := st3.full_reasoning_content }
    else st3
  else st2

/-- `sage.py:570-585` `Chat._mini_slate_cleaner`: reset the per-turn state —
accumulators, flags, fresh placeholder panels, display list, buffers and the
last parsed payloads. (`last_update_time` is deliberately not reset.) -/
def Chat.mini_slate_cleaner (st : Chat) : Chat :=
  { st with
    full_response_content := ""
    full_reasoning_content := ""
    reasoning_panel_initialized := false
    response_panel_initialized := false
    reasoning_panel := st.nextPanelId
    response_panel := st.nextPanelId + 1
    reasoning_panel_text := ""
    response_panel_text := ""
    nextPanelId := st.nextPanelId + 2
    count_reasoning := true
    count_response := true
    renderables_to_display := []
    reasoning_buffer := []
    response_buffer := []
    reasoning := none
    response := none }

/-- `sage.py:239-241` / `session_manager.py:54-57` `correct_history`: pop the
final entry when it is a user message. -/
def correctHistory (h : List HMsg) : List HMsg :=
  match h.getLast? with
  | some m => if m.role = "user" then h.dropLast else h
  | none => h

/-- `sage.py:776-779` `Chat.append_history`: append the accumulated response
as a single assistant entry — only when it is non-empty. -/
def Chat.append_history (st : Chat) : Chat :=
  if st.full_response_content ≠ "" then
    { st with history := st.history ++ [⟨"assistant", st.full_response_content⟩] }
  else st

/-- One pass of the streaming loop body (`sage.py:654-658`): parse the chunk,
run both panel spawners, then the cadence flush. -/
def Chat.process_chunk (cfg : StreamCfg) (st : Chat) (c : Chunk) : Chat :=
  ((st.chunk_parse c).spawn_reasoning_panel.spawn_response_panel cfg).update_renderables
    cfg c.now

/-- The whole streaming loop over the fragments received. -/
def Chat.process_chunks (cfg : StreamCfg) (st : Chat) (cs : List Chunk) : Chat :=
  cs.foldl (Chat.process_chunk cfg) st

/-- The state at the top of `stream_response` for a submitted turn: the user
prompt appended by `slate_cleaner` (`sage.py:553`), per-turn state freshly
reset (`sage.py:402`), the live display started (`sage.py:647`) and
`cancel_requested` cleared (`sage.py:644`). Panel ids `0` and `1` stand for
the placeholder panels. -/
def initialChat (h : List HMsg) (user_message : String) : Chat :=
  { history := h ++ [⟨"user", user_message⟩]
    live := true
    reasoning_panel := 0
    response_panel := 1
    nextPanelId := 2
    reasoning_panel_text := ""
    response_panel_text := ""
    reasoning_panel_initialized := false
    response_panel_initialized := false
    count_reasoning := true
    count_response := true
    cancel_requested := false
    renderables_to_display := []
    reasoning := none
    response := none
    reasoning_buffer := []
    response_buffer := []
    full_reasoning_content := ""
    full_response_content := ""
    last_update_time := 0 }

/-- A normally-completing turn of `sage.py:637-687` `Chat.stream_response`:
submit `user_message` against history `h`, consume every fragment, run the
final `buffer_flusher`, then — `cancel_requested` being false — commit via
`append_history`. (The trailing `spawn_status_panel` only renders and
recounts tokens; it does not edit the history.) -/
def streamNormal (cfg : StreamCfg) (h : List HMsg) (user_message : String)
    (cs : List Chunk) : Chat :=
  ((initialChat h user_message).process_chunks cfg cs |>.buffer_flusher cfg).append_history

/-- A turn canceled mid-stream (`sage.py:662-682`): the fragments in `cs` are
the ones processed before the `KeyboardInterrupt`; the handler runs
`_mini_slate_cleaner`, stops the display and sets `cancel_requested`, and the
`finally` block then runs `correct_history`, removing the orphaned user
prompt. -/
def streamCanceled (cfg : StreamCfg) (h : List HMsg) (user_message : String)
    (cs : List Chunk) : Chat :=
  let st := ((initialChat h user_message).process_chunks cfg cs).mini_slate_cleaner
  let st := { st with cancel_requested := true, live := false }
  { st with history := correctHistory st.history }

/-- The concatenation, in arrival order, of the turn's response/content
fragment texts (`None` and absent payloads contribute `""`). -/
def respConcat (cs : List Chunk) : String :=
  pyJoin (cs.map fun c => (getattrOr c.content).getD "")

/-- The response text a turn has committed so far: accumulator plus whatever
still sits in the buffer. Every streaming step preserves or extends this. -/
def respAcc (st : Chat) : String :=
  st.full_response_content ++ pyJoin st.response_buffer

/-- The sum of the counts stored in a token cache (empty slots count 0). -/
def cacheTotal (cache : List (Option (α × Nat))) : Nat :=
  (cache.map fun e => match e with | some p => p.2 | none => 0).sum

/-- A `sage.py` cache is exact for a history when it is slot-for-slot aligned
and every slot stores the corresponding entry's current extracted text. This
is what `count_tokens` establishes. -/
def SageExact : List Msg → List (Option (String × Nat)) → Prop
  | [], [] => True
  | m :: ms, some p :: cs => p.1 = sageText m.content ∧ SageExact ms cs
  | _, _ => False

/-- A `session_manager.py` cache is exact for a history when it is
slot-for-slot aligned and every slot stores the hash of the corresponding
entry's current extracted text. -/
def SmExact (hsh : String → Int) : List Msg → List (Option (Int × Nat)) → Prop
  | [], [] => True
  | m :: ms, some p :: cs => p.1 = hsh (smText m.content) ∧ SmExact hsh ms cs
  | _, _ => False

/-- A `session_manager.py` cache is sound when every filled slot is the
fingerprint and token count of some text: exactly the slots `count_tokens`
writes. The constructor's empty cache is vacuously sound and no edit touches
the cache, so every reachable cache is sound. -/
def CacheSound (hsh : String → Int) (enc : String → Nat)
    (cache : List (Option (Int × Nat))) : Prop :=
  ∀ p ∈ cache, ∀ hv c, p = some (hv, c) → ∃ t, hv = hsh t ∧ c = enc t

/-- A concrete streaming configuration for counterexamples and witnesses:
consume policy on, cadence period long enough that no intermediate flush
fires at clock 0, identity sanitizer. -/
def cfgConsume : StreamCfg := ⟨true, 1000, 50, 50, fun s => s⟩

/-- As `cfgConsume` but with the consume policy off. -/
def cfgKeep : StreamCfg := ⟨false, 1000, 50, 50, fun s => s⟩

theorem pyJoin_append (a b : List String) : pyJoin (a ++ b) = pyJoin a ++ pyJoin b := by
  induction a with
  | nil => simp [pyJoin]
  | cons x xs ih => simp [pyJoin, ih, String.append_assoc]

theorem chunk_parse_history (st : Chat) (c : Chunk) :
    (st.chunk_parse c).history = st.history := rfl

theorem spawn_reasoning_panel_history (st : Chat) :
    st.spawn_reasoning_panel.history = st.history := by
  simp only [Chat.spawn_reasoning_panel]
  split_ifs <;> rfl

theorem spawn_response_panel_history (cfg : StreamCfg) (st : Chat) :
    (st.spawn_response_panel cfg).history = st.history := by
  simp only [Chat.spawn_response_panel]
  split_ifs <;> rfl

theorem update_renderables_history (cfg : StreamCfg) (st : Chat) (now : Int) :
    (st.update_renderables cfg now).history = st.history := by
  simp only [Chat.update_renderables]
  split_ifs <;> rfl

theorem buffer_flusher_history (cfg : StreamCfg) (st : Chat) :
    (st.buffer_flusher cfg).history = st.history := by
  simp only [Chat.buffer_flusher]
  split_ifs <;> rfl

theorem process_chunk_history (cfg : StreamCfg) (st : Chat) (c : Chunk) :
    (st.process_chunk cfg c).history = st.history := by
  unfold Chat.process_chunk
  rw [update_renderables_history, spawn_response_panel_history,
    spawn_reasoning_panel_history, chunk_parse_history]

theorem process_chunks_history (cfg : StreamCfg) (st : Chat) (cs : List Chunk) :
    (st.process_chunks cfg cs).history = st.history := by
  induction cs generalizing st with
  | nil => rfl
  | cons c cs ih =>
    show (Chat.process_chunks cfg (st.process_chunk cfg c) cs).history = st.history
    rw [ih, process_chunk_history]

theorem mini_slate_cleaner_history (st : Chat) :
    st.mini_slate_cleaner.history = st.history := rfl

theorem chunk_parse_respAcc (st : Chat) (c : Chunk) :
    respAcc (st.chunk_parse c) = respAcc st ++ (getattrOr c.content).getD "" := by
  unfold respAcc Chat.chunk_parse
  dsimp only
  cases hp : getattrOr c.content with
  | none => simp [pyTruthy, String.append_empty]
  | some s =>
    by_cases hs : s = "" <;>
      simp [pyTruthy, hs, pyJoin_append, pyJoin, String.append_empty, String.append_assoc]

theorem spawn_reasoning_panel_respAcc (st : Chat) :
    respAcc st.spawn_reasoning_panel = respAcc st := by
  simp only [Chat.spawn_reasoning_panel]
  split_ifs <;> rfl

theorem spawn_response_panel_respAcc (cfg : StreamCfg) (st : Chat) :
    respAcc (st.spawn_response_panel cfg) = respAcc st := by
  simp only [Chat.spawn_response_panel]
  split_ifs <;> rfl

theorem update_renderables_respAcc (cfg : StreamCfg) (st : Chat) (now : Int) :
    respAcc (st.update_renderables cfg now) = respAcc st := by
  simp only [Chat.update_renderables]
  split_ifs <;> simp [respAcc, pyJoin, String.append_empty]

theorem buffer_flusher_response (cfg : StreamCfg) (st : Chat) :
    (st.buffer_flusher cfg).full_response_content = respAcc st ∧
      (st.buffer_flusher cfg).response_buffer = [] := by
  simp only [Chat.buffer_flusher]
  split_ifs <;>
    simp_all [respAcc, pyJoin, String.append_empty, ne_eq, not_not]

theorem process_chunk_respAcc (cfg : StreamCfg) (st : Chat) (c : Chunk) :
    respAcc (st.process_chunk cfg c) = respAcc st ++ (getattrOr c.content).getD "" := by
  unfold Chat.process_chunk
  rw [update_renderables_respAcc, spawn_response_panel_respAcc,
    spawn_reasoning_panel_respAcc, chunk_parse_respAcc]

theorem process_chunks_respAcc (cfg : StreamCfg) (st : Chat) (cs : List Chunk) :
    respAcc (st.process_chunks cfg cs) = respAcc st ++ respConcat cs := by
  induction cs generalizing st with
  | nil => simp [Chat.process_chunks, respConcat, pyJoin, String.append_empty]
  | cons c cs ih =>
    show respAcc (Chat.process_chunks cfg (st.process_chunk cfg c) cs) = _
    rw [ih, process_chunk_respAcc]
    show _ = respAcc st ++ pyJoin (((getattrOr c.content).getD "") :: cs.map _)
    rw [pyJoin, String.append_assoc]
    rfl

/-- C2: for every starting history, submitting a user turn and canceling it
mid-stream (after any number of processed fragments) leaves the history
exactly as it was: the appended user prompt is removed and no assistant entry
or partial output is committed. -/
theorem cancel_leaves_no_trace (cfg : StreamCfg) (h : List HMsg) (user_message : String)
    (cs : List Chunk) : (streamCanceled cfg h user_message cs).history = h := by
  show correctHistory
      ((((initialChat h user_message).process_chunks cfg cs).mini_slate_cleaner).history) = h
  rw [mini_slate_cleaner_history, process_chunks_history]
  show correctHistory (h ++ [⟨"user", user_message⟩]) = h
  unfold correctHistory
  rw [List.getLast?_concat]
  simp [List.dropLast_concat]

/-- C1 counterexample: a turn that completes streaming normally but whose
single fragment carries only a reasoning payload (its `content` attribute is
Python `None`) ends with history length N+1, not N+2 — `append_history`
skips the empty accumulated response. Here N = 1. -/
theorem stream_commit_counterexample :
    ([(⟨"system", "S"⟩ : HMsg)].length = 1) ∧
      (streamNormal cfgConsume [⟨"system", "S"⟩] "Hello"
          [⟨some (some "thinking"), some none, 0⟩]).history.length ≠ 1 + 2 := by
  constructor
  · rfl
  · decide

/-- C1 (amended): a normally completing turn over a history of length N ends
with history length N+2 — the user prompt plus one assistant entry whose text
is the concatenation, in arrival order, of the turn's response/content
fragments — provided that concatenation is non-empty; when every fragment's
content payload is empty or `None`, no assistant entry is appended and the
length is N+1. -/
theorem stream_commit (cfg : StreamCfg) (h : List HMsg) (user_message : String)
    (cs : List Chunk) :
    (respConcat cs ≠ "" →
        (streamNormal cfg h user_message cs).history =
          h ++ [⟨"user", user_message⟩, ⟨"assistant", respConcat cs⟩]) ∧
      (respConcat cs = "" →
        (streamNormal cfg h user_message cs).history = h ++ [⟨"user", user_message⟩]) := by
  have hacc : respAcc ((initialChat h user_message).process_chunks cfg cs) = respConcat cs := by
    rw [process_chunks_respAcc]
    show ("" ++ pyJoin []) ++ respConcat cs = respConcat cs
    rw [pyJoin, String.append_empty, String.empty_append]
  have hfl := buffer_flusher_response cfg ((initialChat h user_message).process_chunks cfg cs)
  have hflh := buffer_flusher_history cfg ((initialChat h user_message).process_chunks cfg cs)
  have hph := process_chunks_history cfg (initialChat h user_message) cs
  unfold streamNormal Chat.append_history
  rw [hfl.1, hacc] at *
  constructor
  · intro hne
    rw [if_pos hne]
    show _ ++ _ = _
    rw [hfl.1, hacc, hflh, hph]
    show (h ++ [⟨"user", user_message⟩]) ++ [⟨"assistant", respConcat cs⟩] = _
    rw [List.append_assoc]
    rfl
  · intro he
    rw [if_neg (by simp [he])]
    rw [hflh, hph]
    rfl

/-- C1 witness: the spec's normal-turn scenario — history `[system "S"]`,
user "Hello", content fragments "Hi" and " there" — commits
`assistant "Hi there"` for a final length of 3 = 1 + 2. -/
theorem stream_commit_witness :
    respConcat [⟨none, some (some "Hi"), 0⟩, ⟨none, some (some " there"), 0⟩] ≠ "" ∧
      (streamNormal cfgConsume [⟨"system", "S"⟩] "Hello"
          [⟨none, some (some "Hi"), 0⟩, ⟨none, some (some " there"), 0⟩]).history =
        [⟨"system", "S"⟩, ⟨"user", "Hello"⟩, ⟨"assistant", "Hi there"⟩] :=
  ⟨by decide, by
    have := (stream_commit cfgConsume [⟨"system", "S"⟩] "Hello"
      [⟨none, some (some "Hi"), 0⟩, ⟨none, some (some " there"), 0⟩]).1 (by decide)
    rw [this]
    decide⟩

theorem spawn_reasoning_panel_live (st : Chat) :
    st.spawn_reasoning_panel.live = st.live := by
  simp only [Chat.spawn_reasoning_panel]
  split_ifs <;> rfl

theorem spawn_response_panel_live (cfg : StreamCfg) (st : Chat) :
    (st.spawn_response_panel cfg).live = st.live := by
  simp only [Chat.spawn_response_panel]
  split_ifs <;> rfl

theorem update_renderables_live (cfg : StreamCfg) (st : Chat) (now : Int) :
    (st.update_renderables cfg now).live = st.live := by
  simp only [Chat.update_renderables]
  split_ifs <;> rfl

theorem process_chunk_live (cfg : StreamCfg) (st : Chat) (c : Chunk) :
    (st.process_chunk cfg c).live = st.live := by
  unfold Chat.process_chunk
  rw [update_renderables_live, spawn_response_panel_live, spawn_reasoning_panel_live]
  rfl

theorem spawn_reasoning_panel_init (st : Chat) (hlive : st.live = true) :
    st.spawn_reasoning_panel.reasoning_panel_initialized =
      (st.reasoning_panel_initialized || st.reasoning.isSome) := by
  unfold Chat.spawn_reasoning_panel
  split_ifs with hc
  · simp [hc.1, hc.2.1]
  · simp only [hlive, and_true] at hc
    cases hi : st.reasoning_panel_initialized <;> cases hs : st.reasoning <;>
      simp_all

theorem spawn_response_panel_rinit (cfg : StreamCfg) (st : Chat) :
    (st.spawn_response_panel cfg).reasoning_panel_initialized =
      st.reasoning_panel_initialized := by
  simp only [Chat.spawn_response_panel]
  split_ifs <;> rfl

theorem update_renderables_rinit (cfg : StreamCfg) (st : Chat) (now : Int) :
    (st.update_renderables cfg now).reasoning_panel_initialized =
      st.reasoning_panel_initialized := by
  simp only [Chat.update_renderables]
  split_ifs <;> rfl

theorem process_chunk_rinit (cfg : StreamCfg) (st : Chat) (c : Chunk)
    (hlive : st.live = true) :
    (st.process_chunk cfg c).reasoning_panel_initialized =
      (st.reasoning_panel_initialized || (getattrOr c.reasoning_content).isSome) := by
  unfold Chat.process_chunk
  rw [update_renderables_rinit, spawn_response_panel_rinit,
    spawn_reasoning_panel_init _ (by exact hlive)]
  rfl

theorem process_chunks_rinit (cfg : StreamCfg) (st : Chat) (cs : List Chunk)
    (hlive : st.live = true) :
    (st.process_chunks cfg cs).reasoning_panel_initialized =
      (st.reasoning_panel_initialized ||
        cs.any fun c => (getattrOr c.reasoning_content).isSome) := by
  induction cs generalizing st with
  | nil => simp [Chat.process_chunks]
  | cons c cs ih =>
    show (Chat.process_chunks cfg (st.process_chunk cfg c) cs).reasoning_panel_initialized = _
    rw [ih _ (by rw [process_chunk_live]; exact hlive),
      process_chunk_rinit cfg st c hlive]
    simp [Bool.or_assoc]

theorem update_renderables_renderables (cfg : StreamCfg) (st : Chat) (now : Int) :
    (st.update_renderables cfg now).renderables_to_display = st.renderables_to_display := by
  simp only [Chat.update_renderables]
  split_ifs <;> rfl

theorem spawn_response_panel_renderables_empty (cfg : StreamCfg) (st : Chat)
    (hre : st.renderables_to_display = []) :
    (st.spawn_response_panel cfg).renderables_to_display = [] := by
  simp only [Chat.spawn_response_panel]
  split_ifs with hc hm hcons
  · rw [hre] at hm
    exact absurd hm (List.not_mem_nil _)
  · rw [hre] at hm
    exact absurd hm (List.not_mem_nil _)
  · exact hre
  · exact hre

theorem process_chunk_renderables_empty (cfg : StreamCfg) (st : Chat) (c : Chunk)
    (hre : st.renderables_to_display = [])
    (hr : (getattrOr c.reasoning_content).isSome = false) :
    (st.process_chunk cfg c).renderables_to_display = [] := by
  unfold Chat.process_chunk
  have h1 : (st.chunk_parse c).spawn_reasoning_panel = st.chunk_parse c := by
    unfold Chat.spawn_reasoning_panel
    rw [if_neg]
    intro hcond
    have hrr : (st.chunk_parse c).reasoning = getattrOr c.reasoning_content := rfl
    rw [hrr, hr] at hcond
    exact Bool.noConfusion hcond.1
  rw [h1, update_renderables_renderables]
  exact spawn_response_panel_renderables_empty cfg _ hre

theorem process_chunks_renderables_empty (cfg : StreamCfg) (st : Chat) (cs : List Chunk)
    (hre : st.renderables_to_display = [])
    (hall : (cs.any fun c => (getattrOr c.reasoning_content).isSome) = false) :
    (st.process_chunks cfg cs).renderables_to_display = [] := by
  induction cs generalizing st with
  | nil => exact hre
  | cons c cs ih =>
    simp only [List.any_cons, Bool.or_eq_false_iff] at hall
    exact ih _ (process_chunk_renderables_empty cfg st c hre hall.1) hall.2

/-- C6 counterexample: a turn whose single fragment carries no reasoning
payload at all (the delta has no `reasoning_content` attribute, so
`getattr(..., "")` yields `""`, which `is not None`) still instantiates the
reasoning panel and adds it to the display. -/
theorem reasoning_panel_counterexample :
    (([⟨none, some (some "hi"), 0⟩] : List Chunk).all fun c =>
        !pyTruthy (getattrOr c.reasoning_content)) = true ∧
      ((initialChat [⟨"system", "S"⟩] "q").process_chunks cfgKeep
          [⟨none, some (some "hi"), 0⟩]).reasoning_panel_initialized = true ∧
      ((initialChat [⟨"system", "S"⟩] "q").process_chunks cfgKeep
            [⟨none, some (some "hi"), 0⟩]).reasoning_panel ∈
        ((initialChat [⟨"system", "S"⟩] "q").process_chunks cfgKeep
            [⟨none, some (some "hi"), 0⟩]).renderables_to_display := by
  refine ⟨by decide, by decide, by decide⟩

/-- C6 (amended): in a turn the reasoning panel is instantiated exactly when
some fragment's parsed reasoning field is non-`None` — and a missing
`reasoning_content` attribute parses to `""`, not `None`, so fragments with
an empty or absent reasoning payload also trigger it; only a turn all of
whose fragments carry a literal `None` reasoning field never instantiates
(or displays) a panel. -/
theorem reasoning_panel_spawn (cfg : StreamCfg) (h : List HMsg) (user_message : String)
    (cs : List Chunk) :
    ((initialChat h user_message).process_chunks cfg cs).reasoning_panel_initialized =
        (cs.any fun c => (getattrOr c.reasoning_content).isSome) ∧
      ((cs.any fun c => (getattrOr c.reasoning_content).isSome) = false →
        ((initialChat h user_message).process_chunks cfg cs).renderables_to_display = []) := by
  constructor
  · rw [process_chunks_rinit cfg _ cs rfl]
    rfl
  · intro hall
    exact process_chunks_renderables_empty cfg _ cs rfl hall

/-- C7 counterexample: with the consume policy on, reasoning fragments that
arrive after the response panel replaced the display sit in a non-empty
reasoning buffer at finalization, yet `buffer_flusher` does not drain them
into the accumulator (the panel-membership guard fails), so the accumulated
reasoning stays empty. -/
theorem buffer_flusher_counterexample :
    (((initialChat [⟨"system", "S"⟩] "q").process_chunks cfgConsume
          [⟨some (some "think"), some (some "answer"), 0⟩,
           ⟨some (some " more"), some none, 0⟩]).reasoning_buffer ≠ []) ∧
      ((((initialChat [⟨"system", "S"⟩] "q").process_chunks cfgConsume
            [⟨some (some "think"), some (some "answer"), 0⟩,
             ⟨some (some " more"), some none, 0⟩]).buffer_flusher
          cfgConsume).full_reasoning_content = "") ∧
      pyJoin (((initialChat [⟨"system", "S"⟩] "q").process_chunks cfgConsume
          [⟨some (some "think"), some (some "answer"), 0⟩,
           ⟨some (some " more"), some none, 0⟩]).reasoning_buffer) ≠ "" := by
  refine ⟨by decide, by decide, by decide⟩

/-- C7 (amended): at finalization `buffer_flusher` drains the response buffer
into its accumulator and pushes the sanitized accumulated response to the
response panel unconditionally — ignoring the per-channel "still counting"
flags, which gate only intermediate re-renders; the reasoning buffer,
however, is drained into its accumulator and the accumulated reasoning pushed
to its panel only when the reasoning panel is currently in the display list
(the buffer itself is cleared either way). -/
theorem buffer_flusher_final (cfg : StreamCfg) (st : Chat) (hlive : st.live = true) :
    ((st.buffer_flusher cfg).full_response_content =
        st.full_response_content ++ pyJoin st.response_buffer) ∧
      (st.buffer_flusher cfg).response_buffer = [] ∧
      (st.buffer_flusher cfg).reasoning_buffer = [] ∧
      (st.buffer_flusher cfg).response_panel_text =
        cfg.sanitize (st.buffer_flusher cfg).full_response_content ∧
      (st.reasoning_panel ∈ st.renderables_to_display →
        (st.buffer_flusher cfg).full_reasoning_content =
            st.full_reasoning_content ++ pyJoin st.reasoning_buffer ∧
          (st.buffer_flusher cfg).reasoning_panel_text =
            (st.buffer_flusher cfg).full_reasoning_content) ∧
      (st.reasoning_panel ∉ st.renderables_to_display →
        (st.buffer_flusher cfg).full_reasoning_content = st.full_reasoning_content) := by
  simp only [Chat.buffer_flusher]
  split_ifs <;>
    simp_all [pyJoin, String.append_empty, ne_eq, not_not]

/-- C7 witness: a live state with a displayed reasoning panel and non-empty
buffers on both channels has both drained and both pushed by the final flush. -/
theorem buffer_flusher_final_witness :
    (Chat.live ⟨[], true, 2, 3, 4, "", "", true, true, false, false, false, [2, 3],
          none, none, ["r1", "r2"], ["a1"], "R", "A", 0⟩ = true) ∧
      ((Chat.buffer_flusher cfgConsume
            ⟨[], true, 2, 3, 4, "", "", true, true, false, false, false, [2, 3],
              none, none, ["r1", "r2"], ["a1"], "R", "A", 0⟩).full_response_content =
          "A" ++ pyJoin ["a1"]) ∧
      ((Chat.buffer_flusher cfgConsume
            ⟨[], true, 2, 3, 4, "", "", true, true, false, false, false, [2, 3],
              none, none, ["r1", "r2"], ["a1"], "R", "A", 0⟩).full_reasoning_content =
          "R" ++ pyJoin ["r1", "r2"]) := by
  refine ⟨rfl, ?_, ?_⟩
  · exact (buffer_flusher_final cfgConsume _ rfl).1
  · exact ((buffer_flusher_final cfgConsume _ rfl).2.2.2.2.1 (by decide)).1

theorem sageCountLoop_total (enc : String → Nat) (ms : List Msg)
    (cache : List (Option (String × Nat))) :
    (sageCountLoop enc ms cache).1 = cacheTotal (sageCountLoop enc ms cache).2.1 := by
  induction ms generalizing cache with
  | nil => simp [sageCountLoop, cacheTotal]
  | cons m ms ih =>
    match cache with
    | [] => simp [sageCountLoop, cacheTotal, ih]
    | none :: rest => simp [sageCountLoop, cacheTotal, ih]
    | some p :: rest =>
      by_cases ht : p.1 = sageText m.content <;>
        simp [sageCountLoop, ht, cacheTotal, ih]

theorem sageCountLoop_exact (enc : String → Nat) (ms : List Msg)
    (cache : List (Option (String × Nat))) :
    SageExact ms (sageCountLoop enc ms cache).2.1 := by
  induction ms generalizing cache with
  | nil => simp [sageCountLoop, SageExact]
  | cons m ms ih =>
    match cache with
    | [] => simpa [sageCountLoop, SageExact] using ih []
    | none :: rest => simpa [sageCountLoop, SageExact] using ih rest
    | some p :: rest =>
      by_cases ht : p.1 = sageText m.content <;>
        simpa [sageCountLoop, ht, SageExact] using ih rest

theorem sageCountLoop_length (enc : String → Nat) (ms : List Msg)
    (cache : List (Option (String × Nat))) :
    (sageCountLoop enc ms cache).2.1.length = ms.length := by
  induction ms generalizing cache with
  | nil => simp [sageCountLoop]
  | cons m ms ih =>
    match cache with
    | [] => simp [sageCountLoop, ih]
    | none :: rest => simp [sageCountLoop, ih]
    | some p :: rest =>
      by_cases ht : p.1 = sageText m.content <;> simp [sageCountLoop, ht, ih]

theorem sageExact_loop (enc : String → Nat) (ms : List Msg)
    (cs : List (Option (String × Nat))) (hex : SageExact ms cs) :
    sageCountLoop enc ms cs = (cacheTotal cs, cs, 0) := by
  induction ms generalizing cs with
  | nil =>
    cases cs with
    | nil => simp [sageCountLoop, cacheTotal]
    | cons c cs => exact absurd hex (by simp [SageExact])
  | cons m ms ih =>
    cases cs with
    | nil => exact absurd hex (by simp [SageExact])
    | cons c cs =>
      cases c with
      | none => exact absurd hex (by simp [SageExact])
      | some p =>
        obtain ⟨p1, p2⟩ := p
        rw [show SageExact (m :: ms) (some (p1, p2) :: cs) =
            (p1 = sageText m.content ∧ SageExact ms cs) from rfl] at hex
        simp [sageCountLoop, hex.1, ih cs hex.2, cacheTotal]

theorem sageExact_length (ms : List Msg) (cs : List (Option (String × Nat)))
    (hex : SageExact ms cs) : cs.length = ms.length := by
  induction ms generalizing cs with
  | nil =>
    cases cs with
    | nil => rfl
    | cons c cs => exact absurd hex (by simp [SageExact])
  | cons m ms ih =>
    cases cs with
    | nil => exact absurd hex (by simp [SageExact])
    | cons c cs =>
      cases c with
      | none => exact absurd hex (by simp [SageExact])
      | some p =>
        simpa using ih cs hex.2

theorem reconcile_self (cache : List (Option α)) (n : Nat) (h : cache.length = n) :
    reconcile cache n = cache := by
  subst h
  simp [reconcile, List.take_length]

theorem sage_count_of_exact (enc : String → Nat) (s1 : SageSessionManager)
    (hex : SageExact s1.history s1.token_cache) :
    s1.count_tokens enc = (cacheTotal s1.token_cache, s1, 0) := by
  unfold SageSessionManager.count_tokens
  dsimp only
  rw [reconcile_self _ _ (sageExact_length _ _ hex), sageExact_loop enc _ _ hex]

theorem smCountLoop_total (hsh : String → Int) (enc : String → Nat) (ms : List Msg)
    (cache : List (Option (Int × Nat))) :
    (smCountLoop hsh enc ms cache).1 = cacheTotal (smCountLoop hsh enc ms cache).2.1 := by
  induction ms generalizing cache with
  | nil => simp [smCountLoop, cacheTotal]
  | cons m ms ih =>
    match cache with
    | [] => simp [smCountLoop, cacheTotal, ih]
    | none :: rest => simp [smCountLoop, cacheTotal, ih]
    | some p :: rest =>
      by_cases ht : p.1 = hsh (smText m.content) <;>
        simp [smCountLoop, ht, cacheTotal, ih]

theorem smCountLoop_exact (hsh : String → Int) (enc : String → Nat) (ms : List Msg)
    (cache : List (Option (Int × Nat))) :
    SmExact hsh ms (smCountLoop hsh enc ms cache).2.1 := by
  induction ms generalizing cache with
  | nil => simp [smCountLoop, SmExact]
  | cons m ms ih =>
    match cache with
    | [] => simpa [smCountLoop, SmExact] using ih []
    | none :: rest => simpa [smCountLoop, SmExact] using ih rest
    | some p :: rest =>
      by_cases ht : p.1 = hsh (smText m.content) <;>
        simpa [smCountLoop, ht, SmExact] using ih rest

theorem smExact_loop (hsh : String → Int) (enc : String → Nat) (ms : List Msg)
    (cs : List (Option (Int × Nat))) (hex : SmExact hsh ms cs) :
    smCountLoop hsh enc ms cs = (cacheTotal cs, cs, 0) := by
  induction ms generalizing cs with
  | nil =>
    cases cs with
    | nil => simp [smCountLoop, cacheTotal]
    | cons c cs => exact absurd hex (by simp [SmExact])
  | cons m ms ih =>
    cases cs with
    | nil => exact absurd hex (by simp [SmExact])
    | cons c cs =>
      cases c with
      | none => exact absurd hex (by simp [SmExact])
      | some p =>
        obtain ⟨p1, p2⟩ := p
        rw [show SmExact hsh (m :: ms) (some (p1, p2) :: cs) =
            (p1 = hsh (smText m.content) ∧ SmExact hsh ms cs) from rfl] at hex
        simp [smCountLoop, hex.1, ih cs hex.2, cacheTotal]

theorem smExact_length (hsh : String → Int) (ms : List Msg)
    (cs : List (Option (Int × Nat))) (hex : SmExact hsh ms cs) :
    cs.length = ms.length := by
  induction ms generalizing cs with
  | nil =>
    cases cs with
    | nil => rfl
    | cons c cs => exact absurd hex (by simp [SmExact])
  | cons m ms ih =>
    cases cs with
    | nil => exact absurd hex (by simp [SmExact])
    | cons c cs =>
      cases c with
      | none => exact absurd hex (by simp [SmExact])
      | some p => simpa using ih cs hex.2

theorem sm_count_of_exact (hsh : String → Int) (enc : String → Nat)
    (s1 : SessionManager) (hex : SmExact hsh s1.history s1.token_cache) :
    s1.count_tokens hsh enc = (cacheTotal s1.token_cache, s1, 0) := by
  unfold SessionManager.count_tokens
  dsimp only
  rw [reconcile_self _ _ (smExact_length _ _ _ hex), smExact_loop hsh enc _ _ hex]

/-- C5: calling `count_tokens` twice in a row with no intervening edits
returns the same total both times, and the second call re-tokenizes zero
entries — every slot is served from the cache. Proved for both
implementations: `sage.py`'s (text-keyed cache, manager `s`) and
`session_manager.py`'s (hash-keyed cache, manager `s2`). -/
theorem count_tokens_idempotent (enc : String → Nat) (hsh : String → Int)
    (s : SageSessionManager) (s2 : SessionManager) :
    (((s.count_tokens enc).2.1).count_tokens enc).1 = (s.count_tokens enc).1 ∧
      (((s.count_tokens enc).2.1).count_tokens enc).2.2 = 0 ∧
      (((s2.count_tokens hsh enc).2.1).count_tokens hsh enc).1 =
        (s2.count_tokens hsh enc).1 ∧
      (((s2.count_tokens hsh enc).2.1).count_tokens hsh enc).2.2 = 0 := by
  have hex : SageExact ((s.count_tokens enc).2.1).history
      ((s.count_tokens enc).2.1).token_cache :=
    sageCountLoop_exact enc s.history (reconcile s.token_cache s.history.length)
  have h2 := sage_count_of_exact enc _ hex
  have hex2 : SmExact hsh ((s2.count_tokens hsh enc).2.1).history
      ((s2.count_tokens hsh enc).2.1).token_cache :=
    smCountLoop_exact hsh enc s2.history (reconcile s2.token_cache s2.history.length)
  have h4 := sm_count_of_exact hsh enc _ hex2
  refine ⟨?_, ?_, ?_, ?_⟩
  · rw [h2]
    exact (sageCountLoop_total enc s.history (reconcile s.token_cache s.history.length)).symm
  · rw [h2]
  · rw [h4]
    exact (smCountLoop_total hsh enc s2.history
      (reconcile s2.token_cache s2.history.length)).symm
  · rw [h4]

theorem cacheSound_reconcile (hsh : String → Int) (enc : String → Nat)
    (cache : List (Option (Int × Nat))) (n : Nat)
    (hs : CacheSound hsh enc cache) : CacheSound hsh enc (reconcile cache n) := by
  intro p hp hv c hpc
  rcases List.mem_append.mp hp with hm | hm
  · exact hs p (List.mem_of_mem_take hm) hv c hpc
  · rw [List.eq_of_mem_replicate hm] at hpc
    exact Option.noConfusion hpc

theorem smCountLoop_sound_total (hsh : String → Int) (enc : String → Nat)
    (hcomp : ∀ a b, hsh a = hsh b → enc a = enc b) (ms : List Msg)
    (cache : List (Option (Int × Nat))) (hs : CacheSound hsh enc cache) :
    (smCountLoop hsh enc ms cache).1 =
      (ms.map fun m => enc (smText m.content)).sum := by
  induction ms generalizing cache with
  | nil => simp [smCountLoop]
  | cons m ms ih =>
    have htail : CacheSound hsh enc cache.tail := by
      intro p hp
      exact hs p (List.mem_of_mem_tail hp)
    match cache with
    | [] => simp [smCountLoop, ih [] htail]
    | none :: rest => simp [smCountLoop, ih rest htail]
    | some p :: rest =>
      by_cases ht : p.1 = hsh (smText m.content)
      · obtain ⟨t, hth, htc⟩ := hs (some p) (List.mem_cons_self _ _) p.1 p.2 rfl
        have : p.2 = enc (smText m.content) := by
          rw [htc]
          exact hcomp t (smText m.content) (by rw [← hth, ht])
        simp [smCountLoop, ht, ih rest htail, this]
      · simp [smCountLoop, ht, ih rest htail]

theorem applyEdits_token_cache (s : SessionManager) (es : List Edit) :
    (s.applyEdits es).token_cache = s.token_cache := by
  induction es generalizing s with
  | nil => rfl
  | cons e es ih =>
    show (SessionManager.applyEdits (s.applyEdit e) es).token_cache = _
    rw [ih]
    cases e <;> rfl

/-- C4: after any sequence of `append_message`/`remove_history` edits, the
total returned by `count_tokens` equals the total obtained by re-tokenizing
the edited history from scratch with an empty cache — the incremental cache
never reuses a stale entry incorrectly. Hypotheses: the starting cache is
sound (every filled slot is the fingerprint and count of some text — true of
the constructor's empty cache and preserved by every operation), and the
fingerprint does not conflate texts with different token counts (Python's
string hash, modelled as an abstract collision-free-in-effect function). -/
theorem count_matches_scratch (hsh : String → Int) (enc : String → Nat)
    (hcomp : ∀ a b, hsh a = hsh b → enc a = enc b) (s : SessionManager)
    (hsound : CacheSound hsh enc s.token_cache) (es : List Edit) :
    ((s.applyEdits es).count_tokens hsh enc).1 =
      ((SessionManager.mk (s.applyEdits es).history []).count_tokens hsh enc).1 := by
  have h1 : ((s.applyEdits es).count_tokens hsh enc).1 =
      ((s.applyEdits es).history.map fun m => enc (smText m.content)).sum := by
    apply smCountLoop_sound_total hsh enc hcomp
    apply cacheSound_reconcile
    rw [applyEdits_token_cache]
    exact hsound
  have h2 : ((SessionManager.mk (s.applyEdits es).history []).count_tokens hsh enc).1 =
      ((s.applyEdits es).history.map fun m => enc (smText m.content)).sum := by
    apply smCountLoop_sound_total hsh enc hcomp
    apply cacheSound_reconcile
    intro p hp
    exact absurd hp (List.not_mem_nil p)
  rw [h1, h2]

/-- C4 witness: length-as-hash with length-as-tokenizer satisfies the
collision hypothesis; starting from a fresh manager (sound empty cache), an
append-remove-append edit sequence counts the same incrementally as from
scratch. -/
theorem count_matches_scratch_witness :
    (∀ a b : String, ((a.length : Int) = (b.length : Int)) → a.length = b.length) ∧
      CacheSound (fun t => (t.length : Int)) String.length [] ∧
      (((⟨[⟨"system", .str "S"⟩], []⟩ : SessionManager).applyEdits
            [.append "user" "hello", .remove 1, .append "user" "world"]).count_tokens
          (fun t => (t.length : Int)) String.length).1 =
        ((SessionManager.mk
              ((⟨[⟨"system", .str "S"⟩], []⟩ : SessionManager).applyEdits
                [.append "user" "hello", .remove 1, .append "user" "world"]).history
              []).count_tokens (fun t => (t.length : Int)) String.length).1 := by
  refine ⟨fun a b h => by exact_mod_cast h, ?_, ?_⟩
  · intro p hp
    exact absurd hp (List.not_mem_nil p)
  · exact count_matches_scratch _ _ (fun a b h => by exact_mod_cast h) _
      (fun p hp => absurd hp (List.not_mem_nil p)) _

theorem trimLoop_cons2 (limit tokens : Int) (m0 m1 : Msg) (hrest : List Msg)
    (p0 p1 : Int × Nat) (crest : List (Option (Int × Nat))) (h : limit < tokens) :
    trimLoop limit tokens (m0 :: m1 :: hrest) (some p0 :: some p1 :: crest) =
      trimLoop limit (tokens - (p1.2 : Int)) (m0 :: hrest) (some p0 :: crest) := by
  rw [trimLoop.eq_def]
  simp only [if_pos h]

theorem trimLoop_stop (limit tokens : Int) (m0 m1 : Msg) (hrest : List Msg)
    (cache : List (Option (Int × Nat))) (h : ¬limit < tokens) :
    trimLoop limit tokens (m0 :: m1 :: hrest) cache = (tokens, m0 :: m1 :: hrest, cache) := by
  rw [trimLoop.eq_def]
  simp only [if_neg h]

theorem trimLoop_short (limit tokens : Int) (hist : List Msg)
    (cache : List (Option (Int × Nat))) (h : hist.length ≤ 1) :
    trimLoop limit tokens hist cache = (tokens, hist, cache) := by
  rw [trimLoop.eq_def]
  cases hist with
  | nil => rfl
  | cons m tl =>
    cases tl with
    | nil => rfl
    | cons m1 tl2 => simp at h

theorem trimLoop_spec (hsh : String → Int) (limit : Int) (hlim : 0 ≤ limit) :
    ∀ (tokens : Int) (hist : List Msg) (cache : List (Option (Int × Nat))),
      SmExact hsh hist cache → tokens = (cacheTotal cache : Int) →
        SmExact hsh (trimLoop limit tokens hist cache).2.1
            (trimLoop limit tokens hist cache).2.2 ∧
          (trimLoop limit tokens hist cache).1 =
            (cacheTotal (trimLoop limit tokens hist cache).2.2 : Int) ∧
          ((trimLoop limit tokens hist cache).1 ≤ limit ∨
            (trimLoop limit tokens hist cache).2.1.length = 1) ∧
          (trimLoop limit tokens hist cache).2.1.head? = hist.head? := by
  intro tokens hist cache
  induction tokens, hist, cache using trimLoop.induct limit with
  | case1 tokens m0 m1 hrest cache hcond step ih =>
    intro hex ht
    cases cache with
    | nil => exact absurd hex (by simp [SmExact])
    | cons c0 cs =>
      cases c0 with
      | none => exact absurd hex (by simp [SmExact])
      | some p0 =>
        cases cs with
        | nil => exact absurd hex.2 (by simp [SmExact])
        | cons c1 crest =>
          cases c1 with
          | none => exact absurd hex.2 (by simp [SmExact])
          | some p1 =>
            have hstep : step = (some p0 :: crest, tokens - (p1.2 : Int)) := rfl
            rw [hstep] at ih
            dsimp only at ih
            have hex' : SmExact hsh (m0 :: hrest) (some p0 :: crest) :=
              ⟨hex.1, hex.2.2⟩
            have ht' : tokens - (p1.2 : Int) = (cacheTotal (some p0 :: crest) : Int) := by
              rw [ht]
              simp only [cacheTotal, List.map_cons, List.sum_cons]
              push_cast
              ring
            have hrec := ih hex' ht'
            rw [trimLoop_cons2 limit tokens m0 m1 hrest p0 p1 crest hcond]
            exact ⟨hrec.1, hrec.2.1, hrec.2.2.1, by rw [hrec.2.2.2]; rfl⟩
  | case2 tokens m0 m1 hrest cache hcond =>
    intro hex ht
    rw [trimLoop_stop limit tokens m0 m1 hrest cache hcond]
    exact ⟨hex, ht, Or.inl (not_lt.mp hcond), rfl⟩
  | case3 tokens hist cache hnot =>
    intro hex ht
    have hlen : hist.length ≤ 1 := by
      cases hist with
      | nil => simp
      | cons m tl =>
        cases tl with
        | nil => simp
        | cons m1 tl2 => exact absurd rfl (hnot m m1 tl2)
    rw [trimLoop_short limit tokens hist cache hlen]
    refine ⟨hex, ht, ?_, rfl⟩
    cases hist with
    | nil =>
      left
      cases cache with
      | nil =>
        rw [ht]
        simpa [cacheTotal] using hlim
      | cons c cs => exact absurd hex (by simp [SmExact])
    | cons m tl =>
      cases tl with
      | nil => right; rfl
      | cons m1 tl2 => exact absurd rfl (hnot m m1 tl2)

/-- C3: `trim_history` never evicts index 0 — the message at index 0 after
the call is exactly the message that was there before — and afterwards either
the total token count (as `count_tokens` reports it) is within the budget
`int(context_length * 0.95)` (hence at most `context_length * 0.95`), or
exactly one message remains. -/
theorem trim_history_spec (hsh : String → Int) (enc : String → Nat) (cl : Nat)
    (s : SessionManager) :
    (s.trim_history hsh enc cl).history.head? = s.history.head? ∧
      ((((s.trim_history hsh enc cl).count_tokens hsh enc).1 : Int) ≤
          ((cl * 95 / 100 : Nat) : Int) ∨
        (s.trim_history hsh enc cl).history.length = 1) := by
  have hex0 : SmExact hsh s.history (s.count_tokens hsh enc).2.1.token_cache :=
    smCountLoop_exact hsh enc s.history (reconcile s.token_cache s.history.length)
  have htot : ((s.count_tokens hsh enc).1 : Int) =
      (cacheTotal (s.count_tokens hsh enc).2.1.token_cache : Int) := by
    simpa using congrArg (fun n : Nat => (n : Int))
      (smCountLoop_total hsh enc s.history (reconcile s.token_cache s.history.length))
  have hspec := trimLoop_spec hsh ((cl * 95 / 100 : Nat) : Int) (Int.ofNat_nonneg _)
    ((s.count_tokens hsh enc).1 : Int) s.history
    (s.count_tokens hsh enc).2.1.token_cache hex0 htot
  refine ⟨hspec.2.2.2, ?_⟩
  rcases hspec.2.2.1 with hb | hone
  · left
    have hcount := sm_count_of_exact hsh enc (s.trim_history hsh enc cl) hspec.1
    rw [show ((s.trim_history hsh enc cl).count_tokens hsh enc).1 =
        cacheTotal (s.trim_history hsh enc cl).token_cache from by rw [hcount]]
    exact hspec.2.1 ▸ hb
  · right
    exact hone

theorem processStep_inv (reprL : List HElem → String) (orig store : List HeapMsg)
    (origLists lists : List (List HElem)) (processed : List Nat) (r : Nat)
    (hr : r < orig.length ∧ (orig.getD r defaultHeapMsg).content.isListRef = false)
    (hinv : HeapInv orig origLists store lists processed) :
    ∀ acc, processStep reprL store lists processed r = some acc →
      HeapInv orig origLists acc.1 acc.2.1 acc.2.2 := by
  intro acc hacc
  obtain ⟨hlen, hpres, hlists, hproc⟩ := hinv
  have hcur : store.getD r defaultHeapMsg = orig.getD r defaultHeapMsg := by
    rw [List.getD_eq_getElem?_getD, List.getD_eq_getElem?_getD, hpres r hr.1]
  have happend : HeapInv orig origLists (store ++ [store.getD r defaultHeapMsg]) lists
      (processed ++ [store.length]) := by
    refine ⟨by simpa using Nat.le_succ_of_le hlen, ?_, hlists, ?_⟩
    · intro i hi
      rw [List.getElem?_append_left (by omega)]
      exact hpres i hi
    · intro p hp
      rcases List.mem_append.mp hp with hm | hm
      · rcases hproc p hm with ⟨h1, h2, h3⟩
        refine ⟨h1, by simpa using Nat.lt_succ_of_lt h2, ?_⟩
        rw [List.getD_eq_getElem?_getD, List.getElem?_append_left h2,
          ← List.getD_eq_getElem?_getD]
        exact h3
      · rcases List.mem_singleton.mp hm with rfl
        refine ⟨hlen, by simp, ?_⟩
        rw [List.getD_eq_getElem?_getD, List.getElem?_concat_length]
        rw [hcur]
        exact hr.2
  unfold processStep at hacc
  revert hacc
  split
  · dsimp only
    split_ifs with hrole
    · rename_i p hp
      have hpmem := hproc p (List.mem_of_getLast?_eq_some hp)
      split
      · rename_i s hs
        intro hacc
        obtain rfl : acc = (store.set p
            { store.getD p defaultHeapMsg with
              content := .str (s ++ ("\n\n" ++
                pyStrContent reprL lists (store.getD r defaultHeapMsg).content)) },
            lists, processed) := by
          exact (Option.some.injEq _ _ ▸ hacc).symm
        refine ⟨by simpa using hlen, ?_, hlists, ?_⟩
        · intro i hi
          rw [List.getElem?_set_ne (by omega)]
          exact hpres i hi
        · intro q hq
          rcases hproc q hq with ⟨h1, h2, h3⟩
          refine ⟨h1, by simpa using h2, ?_⟩
          by_cases hqp : q = p
          · subst hqp
            rw [List.getD_eq_getElem?_getD, List.getElem?_set_self h2]
            rfl
          · rw [List.getD_eq_getElem?_getD, List.getElem?_set_ne (fun h => hqp h.symm),
              ← List.getD_eq_getElem?_getD]
            exact h3
      · rename_i lr hlr
        intro _
        rw [hlr] at hpmem
        simp [HContent.isListRef] at hpmem
      · intro hacc
        exact Option.noConfusion hacc
    · intro hacc
      obtain rfl : acc = (store ++ [store.getD r defaultHeapMsg], lists,
          processed ++ [store.length]) := by
        exact (Option.some.injEq _ _ ▸ hacc).symm
      exact happend
  · intro hacc
    obtain rfl : acc = (store ++ [store.getD r defaultHeapMsg], lists,
        processed ++ [store.length]) := by
      exact (Option.some.injEq _ _ ▸ hacc).symm
    exact happend

theorem processLoop_inv (reprL : List HElem → String) (orig : List HeapMsg)
    (origLists : List (List HElem)) (rs : List Nat)
    (hrs : ∀ r ∈ rs, r < orig.length ∧
      (orig.getD r defaultHeapMsg).content.isListRef = false) :
    ∀ store lists processed, HeapInv orig origLists store lists processed →
      HeapInv orig origLists (processLoop reprL (store, lists, processed) rs).1.1
        (processLoop reprL (store, lists, processed) rs).1.2.1
        (processLoop reprL (store, lists, processed) rs).1.2.2 := by
  induction rs with
  | nil =>
    intro store lists processed hinv
    exact hinv
  | cons r rs ih =>
    intro store lists processed hinv
    cases hstep : processStep reprL store lists processed r with
    | some acc =>
      obtain ⟨s1, l1, p1⟩ := acc
      have hloop_eq : processLoop reprL (store, lists, processed) (r :: rs) =
          processLoop reprL (s1, l1, p1) rs := by
        show (match processStep reprL store lists processed r with
          | some acc => processLoop reprL acc rs
          | none => ((store, lists, processed), false)) = _
        rw [hstep]
      rw [hloop_eq]
      exact ih (fun q hq => hrs q (List.mem_cons_of_mem r hq)) s1 l1 p1
        (processStep_inv reprL orig store origLists lists processed r
          (hrs r (List.mem_cons_self r rs)) hinv (s1, l1, p1) hstep)
    | none =>
      have hloop_eq : processLoop reprL (store, lists, processed) (r :: rs) =
          ((store, lists, processed), false) := by
        show (match processStep reprL store lists processed r with
          | some acc => processLoop reprL acc rs
          | none => ((store, lists, processed), false)) = _
        rw [hstep]
      rw [hloop_eq]
      exact hinv

/-- C8 counterexample: on a stored history whose first user message carries
list-valued content — a shape this program handles in `count_tokens` and can
load from disk — `process_history` mutates stored history: `msg.copy()` is
shallow, so the processed copy aliases the stored list object, and the
user-coalescing `+=` extends it in place with the characters of the appended
f-string. The stored cell still references list 0, whose value has changed. -/
theorem process_history_counterexample :
    (0 ∈ ([0, 1] : List Nat)) ∧
      (Heap.store ⟨[⟨"user", .listRef 0⟩, ⟨"user", .str "b"⟩],
          [[.item (.dict "a")]], [0, 1]⟩)[0]? = some ⟨"user", .listRef 0⟩ ∧
      (Heap.lists ⟨[⟨"user", .listRef 0⟩, ⟨"user", .str "b"⟩],
          [[.item (.dict "a")]], [0, 1]⟩)[0]? = some [.item (.dict "a")] ∧
      (process_history reprEx "ENV"
          ⟨[⟨"user", .listRef 0⟩, ⟨"user", .str "b"⟩],
            [[.item (.dict "a")]], [0, 1]⟩).1.store[0]? =
        some ⟨"user", .listRef 0⟩ ∧
      (process_history reprEx "ENV"
          ⟨[⟨"user", .listRef 0⟩, ⟨"user", .str "b"⟩],
            [[.item (.dict "a")]], [0, 1]⟩).1.lists[0]? =
        some [.item (.dict "a"), .char (Char.ofNat 10), .char (Char.ofNat 10),
          .char (Char.ofNat 98)] := by
  refine ⟨by decide, by decide, by decide, by decide, by decide⟩

/-- C8 (amended): `process_history` leaves the stored history untouched — the
reference list, every referenced cell, and every list object — provided no
message the stored history references carries list-valued content (string and
`None` contents are safe: strings are immutable, so the coalescing `+=`
rebinds only the freshly copied cell, and a `None` coalesce raises before
mutating anything). With list-valued content the shallow `msg.copy()` aliases
the stored list and the coalescing `+=` mutates it in place. -/
theorem process_history_pure_strings (reprL : List HElem → String) (env : String)
    (hp : Heap) (hwf : ∀ r ∈ hp.history, r < hp.store.length)
    (hstr : ∀ r ∈ hp.history,
      (hp.store.getD r defaultHeapMsg).content.isListRef = false) :
    (process_history reprL env hp).1.history = hp.history ∧
      (∀ r ∈ hp.history, (process_history reprL env hp).1.store[r]? = hp.store[r]?) ∧
      (process_history reprL env hp).1.lists = hp.lists := by
  have hloop := processLoop_inv reprL hp.store hp.lists hp.history
    (fun r hr => ⟨hwf r hr, hstr r hr⟩) hp.store hp.lists []
    ⟨le_rfl, fun i _ => rfl, rfl, fun p hp' => absurd hp' (List.not_mem_nil p)⟩
  obtain ⟨hlen, hpres, hlists, hproc⟩ := hloop
  refine ⟨?_, ?_, ?_⟩
  · unfold process_history
    dsimp only
    split_ifs
    · split
      · split_ifs <;> rfl
      · rfl
    · rfl
  · intro r hr
    unfold process_history
    dsimp only
    split_ifs
    · split
      · rename_i p0 hp0
        split_ifs
        · dsimp only
          have hp0mem := hproc p0 (List.mem_of_mem_head? hp0)
          rw [List.getElem?_set_ne (by have := hwf r hr; omega)]
          exact hpres r (hwf r hr)
        · exact hpres r (hwf r hr)
      · exact hpres r (hwf r hr)
    · exact hpres r (hwf r hr)
  · unfold process_history
    dsimp only
    split_ifs
    · split
      · split_ifs <;> exact hlists
      · exact hlists
    · exact hlists

/-- C8 witness: a history of string contents — a system prompt and two
consecutive user messages, exercising both the coalescing and the
environment-append — is untouched in the store and the list heap. -/
theorem process_history_pure_strings_witness :
    (∀ r ∈ ([0, 1, 2] : List Nat), r < ([⟨"system", .str "S"⟩, ⟨"user", .str "a"⟩,
        ⟨"user", .str "b"⟩] : List HeapMsg).length) ∧
      (∀ r ∈ ([0, 1, 2] : List Nat),
        (([⟨"system", .str "S"⟩, ⟨"user", .str "a"⟩,
            ⟨"user", .str "b"⟩] : List HeapMsg).getD r
              defaultHeapMsg).content.isListRef = false) ∧
      (process_history reprEx "ENV" ⟨[⟨"system", .str "S"⟩, ⟨"user", .str "a"⟩,
          ⟨"user", .str "b"⟩], [], [0, 1, 2]⟩).1.history = [0, 1, 2] ∧
      (∀ r ∈ ([0, 1, 2] : List Nat),
        (process_history reprEx "ENV" ⟨[⟨"system", .str "S"⟩, ⟨"user", .str "a"⟩,
            ⟨"user", .str "b"⟩], [], [0, 1, 2]⟩).1.store[r]? =
          ([⟨"system", .str "S"⟩, ⟨"user", .str "a"⟩,
            ⟨"user", .str "b"⟩] : List HeapMsg)[r]?) ∧
      (process_history reprEx "ENV" ⟨[⟨"system", .str "S"⟩, ⟨"user", .str "a"⟩,
          ⟨"user", .str "b"⟩], [], [0, 1, 2]⟩).1.lists = [] := by
  have h := process_history_pure_strings reprEx "ENV"
    ⟨[⟨"system", .str "S"⟩, ⟨"user", .str "a"⟩, ⟨"user", .str "b"⟩], [], [0, 1, 2]⟩
    (by decide) (by decide)
  exact ⟨by decide, by decide, h.1, h.2.1, h.2.2⟩

/-- C6 witness for the amended claim: a fragment whose reasoning field is a
literal Python `None` spawns nothing — no panel is instantiated and the
display list stays empty. -/
theorem reasoning_panel_spawn_witness :
    ((([⟨some none, some (some "x"), 0⟩] : List Chunk).any fun c =>
        (getattrOr c.reasoning_content).isSome) = false) ∧
      ((initialChat [⟨"system", "S"⟩] "q").process_chunks cfgKeep
          [⟨some none, some (some "x"), 0⟩]).renderables_to_display = [] :=
  ⟨by decide,
    (reasoning_panel_spawn cfgKeep [⟨"system", "S"⟩] "q"
      [⟨some none, some (some "x"), 0⟩]).2 (by decide)⟩

theorem pyPopAt_length (l : List α) (i : Int) :
    l.length ≤ (pyPopAt l i).length + 1 := by
  have key : ∀ n : Nat, l.length ≤ (l.eraseIdx n).length + 1 := by
    intro n
    rw [List.length_eraseIdx]
    split_ifs <;> omega
  unfold pyPopAt
  dsimp only
  split_ifs <;> first | exact key _ | omega

theorem removeAttachmentLoop_hit (target : Target) (s : SessionManager)
    (lst : List (Nat × String × String))
    (h : (∃ e ∈ lst, target = Target.int (e.1 : Int)) ∨
      (target = Target.str "[all]" ∧ lst ≠ [])) :
    (removeAttachmentLoop target s lst).2 = none ∧
      s.history.length ≤ (removeAttachmentLoop target s lst).1.history.length + 1 := by
  induction lst generalizing s with
  | nil =>
    rcases h with ⟨e, he, _⟩ | ⟨_, hne⟩
    · exact absurd he (List.not_mem_nil e)
    · exact absurd rfl hne
  | cons a rest ih =>
    obtain ⟨i, kind, name⟩ := a
    by_cases hall : target = Target.str "[all]"
    · rw [show removeAttachmentLoop target s ((i, kind, name) :: rest) =
          ((s.remove_history (i : Int)).1, none) by
        simp only [removeAttachmentLoop]
        rw [if_pos hall]
        rfl]
      exact ⟨rfl, pyPopAt_length s.history (i : Int)⟩
    · by_cases hint : target = Target.int (i : Int)
      · rw [show removeAttachmentLoop target s ((i, kind, name) :: rest) =
            ((s.remove_history (i : Int)).1, none) by
          simp only [removeAttachmentLoop]
          rw [if_neg hall, if_pos hint]
          rfl]
        exact ⟨rfl, pyPopAt_length s.history (i : Int)⟩
      · rw [show removeAttachmentLoop target s ((i, kind, name) :: rest) =
            removeAttachmentLoop target s rest by
          simp only [removeAttachmentLoop]
          rw [if_neg hall, if_neg hint]]
        apply ih
        rcases h with ⟨e, he, het⟩ | ⟨hstr, _⟩
        · rcases List.mem_cons.mp he with rfl | hmem
          · exact absurd het hint
          · exact Or.inl ⟨e, hmem, het⟩
        · exact absurd hstr hall

/-- C9: when `remove_attachment` is called with a target matching an existing
attachment's index, or with `"[all]"` on a history holding at least one
attachment, it removes at most one history entry and returns `None` — never
the removed attachment's kind — because `remove_history` always returns
`None` and the caller's falsy-return guard fires after the first removal. -/
theorem remove_attachment_returns_none (s : SessionManager) (target : Target)
    (h : (∃ e ∈ s.get_attachments, target = Target.int (e.1 : Int)) ∨
      (target = Target.str "[all]" ∧ s.get_attachments ≠ [])) :
    (FileManager.remove_attachment s target).2 = none ∧
      s.history.length ≤ (FileManager.remove_attachment s target).1.history.length + 1 := by
  apply removeAttachmentLoop_hit
  rcases h with ⟨e, he, het⟩ | ⟨hstr, hne⟩
  · exact Or.inl ⟨e, List.mem_reverse.mpr he, het⟩
  · exact Or.inr ⟨hstr, by simpa using hne⟩

/-- C9 witness: purging attachment index 1 from a session holding one file
attachment removes exactly that entry and yields `None`, not `"file"`. -/
theorem remove_attachment_returns_none_witness :
    ((∃ e ∈ (⟨[⟨"system", .str "S"⟩,
          ⟨"user", .str "---\nFile: `a.txt`\n```\nxx\n```\n---"⟩], []⟩ :
            SessionManager).get_attachments,
        Target.int 1 = Target.int (e.1 : Int)) ∨
      (Target.int 1 = Target.str "[all]" ∧
        (⟨[⟨"system", .str "S"⟩,
            ⟨"user", .str "---\nFile: `a.txt`\n```\nxx\n```\n---"⟩], []⟩ :
              SessionManager).get_attachments ≠ [])) ∧
      (FileManager.remove_attachment
          ⟨[⟨"system", .str "S"⟩,
            ⟨"user", .str "---\nFile: `a.txt`\n```\nxx\n```\n---"⟩], []⟩
          (Target.int 1)).2 = none := by
  refine ⟨Or.inl ⟨(1, "file", "a.txt"), by decide, by decide⟩, ?_⟩
  exact (remove_attachment_returns_none _ _
    (Or.inl ⟨(1, "file", "a.txt"), by decide, by decide⟩)).1

/-- C10: `sage.py`'s `reset_with_summary` installs the three-message summary
seed and clears the token cache but leaves `active_session` untouched (it
assigns the unrelated `active_filename` attribute), so the save target — the
previously active session file, when one was set — survives the reset. -/
theorem reset_with_summary_keeps_active_session (system_prompt summary_text : String)
    (s : SageSessionManager) :
    (s.reset_with_summary system_prompt summary_text).active_session =
        s.active_session ∧
      (s.reset_with_summary system_prompt summary_text).history =
        [⟨"system", .str system_prompt⟩,
         ⟨"system", .str "This summary represents the previous session."⟩,
         ⟨"assistant", .str summary_text⟩] ∧
      (s.reset_with_summary system_prompt summary_text).token_cache = [] ∧
      (s.active_session ≠ "" →
        (s.reset_with_summary system_prompt summary_text).save_target =
          some s.active_session) := by
  refine ⟨rfl, rfl, rfl, fun hne => ?_⟩
  unfold SageSessionManager.save_target SageSessionManager.reset_with_summary
  rw [if_pos hne]

/-- C10 witness: after summarizing a session that was saved as
"chat.json", a subsequent save still targets "chat.json". -/
theorem reset_with_summary_keeps_active_session_witness :
    (SageSessionManager.active_session ⟨[], "chat.json", "", []⟩ ≠ "") ∧
      ((SageSessionManager.reset_with_summary "P" "SUM"
          ⟨[], "chat.json", "", []⟩).save_target = some "chat.json") :=
  ⟨by decide,
    (reset_with_summary_keeps_active_session "P" "SUM"
      ⟨[], "chat.json", "", []⟩).2.2.2 (by decide)⟩
